import Mathlib

/-!
Verification of the schema-inference and reconciliation layer of
`scripts/build_ytd_2024_2025.py`.

The script is a single-pass pandas pipeline.  We embed it shallowly:

* A cell of a table is a `Value`.  pandas parsing outcomes are encoded in the
  constructors: a cell that `pd.to_numeric(..., errors="coerce")` would parse
  is represented as `Value.num q`; a cell that `pd.to_datetime(...,
  errors="coerce")` would parse (after the fixed timezone conversion and
  truncation to a calendar date) is represented as `Value.dateV d` with `d`
  the resulting date as an integer ordinal; `Value.null` is NaN/NaT/None and
  `Value.str` is any other string.
* A row is an association list from column name to `Value`; a table is a
  column list plus a row list.
* Python string operations (`lower`, `strip`, `in`) are re-implemented over
  `List Char` so that everything reduces in the kernel.
* The filesystem seen by `_merge_in_amounts_if_needed` is passed in
  explicitly: `listing` is the directory enumeration of `pages/data/reporter`
  in the (arbitrary) order the OS reports it, and `fs` maps a file name to
  `some` loaded table or `none` when reading raises (the `except` branch).
-/

/-- Python `str.lower` (ASCII case folding, which covers every candidate
column name used by the script). -/
def lowerStr (s : String) : String :=
  String.mk (s.data.map Char.toLower)

/-- Python `str.strip`: drop leading and trailing whitespace. -/
def trimStr (s : String) : String :=
  String.mk (((s.data.dropWhile Char.isWhitespace).reverse.dropWhile Char.isWhitespace).reverse)

/-- `hasPre p l` is true when `p` is an initial run of `l`. -/
def hasPre : List Char → List Char → Bool
  | [], _ => true
  | _ :: _, [] => false
  | a :: as, b :: bs => decide (a = b) && hasPre as bs

/-- `hasSubAux p l` is true when `p` occurs contiguously inside `l`. -/
def hasSubAux (p : List Char) : List Char → Bool
  | [] => p.isEmpty
  | b :: bs => hasPre p (b :: bs) || hasSubAux p bs

/-- Python `pat in s` (substring containment). -/
def hasSub (s pat : String) : Bool :=
  hasSubAux pat.data s.data

/-- `pat` occurs contiguously inside `s` (the proposition `hasSub` decides). -/
def SubStr (s pat : String) : Prop :=
  ∃ l r, l ++ pat.data ++ r = s.data

/-- Suffix test used to render the glob patterns (`hasPre` on reversals). -/
def endsWithExt (name ext : String) : Bool :=
  hasPre ext.data.reverse name.data.reverse

/-- A table cell; constructors encode the pandas parsing outcomes (see the
file header). -/
inductive Value where
  | null
  | str (s : String)
  | num (q : ℚ)
  | dateV (d : ℤ)
  deriving DecidableEq, Repr

/-- A row: association list from column name to cell value. -/
abbrev Row := List (String × Value)

/-- Read column `c` of row `r` (missing columns read as NaN). -/
def getV (r : Row) (c : String) : Value :=
  ((r.find? (fun p => decide (p.1 = c))).map Prod.snd).getD Value.null

/-- pandas column assignment `df[c] = v` for one row: overwrite the binding
for `c`, or append it when the column is new. -/
def setCol (r : Row) (c : String) (v : Value) : Row :=
  if r.any (fun p => decide (p.1 = c)) then
    r.map (fun p => if p.1 = c then (c, v) else p)
  else
    r ++ [(c, v)]

/-- pandas `notna` on a cell. -/
def notna : Value → Bool
  | .null => false
  | _ => true

/-- `pd.to_numeric(cell, errors="coerce")`: `some q` when the cell is
numeric, `none` (NaN) otherwise. -/
def parseNum : Value → Option ℚ
  | .num q => some q
  | _ => none

/-- `pd.to_datetime(cell, errors="coerce", utc=True).tz_convert(TZ).date`
as an optional date ordinal. -/
def parseDateOpt : Value → Option ℤ
  | .dateV d => some d
  | _ => none

/-- The same date parse kept as a cell (unparsable cells become NaT). -/
def parseDateV : Value → Value
  | .dateV d => .dateV d
  | _ => .null

/-- Numeric content of a cell (only applied to cells of the detected amount
column, which the script treats as numeric-or-NaN). -/
def ratOf : Value → ℚ
  | .num q => q
  | _ => 0

/-- `fillna("").astype(str)` on a cell. -/
def asText : Value → String
  | .null => ""
  | .str s => s
  | .num q => toString q
  | .dateV d => toString d

/-- `cols[cl.index(w)]`, rendered as a lockstep walk of `cols` and its
lowercased copy `cl` (Python `list.index` returns the first hit). -/
def colAt : List String → List String → String → Option String
  | c :: cs, l :: ls, w => if decide (l = w) then some c else colAt cs ls w
  | _, _, _ => none

/-- The exact-candidate pass of `_pick_col` (source lines 24-26): walk
`priority_exact` in order and return `cols[cl.index(want.lower())]` for the
first candidate present in `cl`. -/
def pickExact (cols cl : List String) : List String → Option String
  | [] => none
  | want :: rest =>
    if cl.any (fun l => decide (l = lowerStr want)) then colAt cols cl (lowerStr want)
    else pickExact cols cl rest

/-- `_pick_col(cols, priority_exact, priority_contains)` (source lines
22-31): exact pass first, then the first column (in original order) whose
lowercased name contains one of `priority_contains`; `none` if both fail. -/
def pickCol (cols priorityExact priorityContains : List String) : Option String :=
  let cl := cols.map lowerStr
  match pickExact cols cl priorityExact with
  | some c => some c
  | none => cols.find? (fun c => priorityContains.any (fun sub => hasSub (lowerStr c) sub))

/-- Exact candidate list of `_detect_amount_col` (source lines 74-81). -/
def amountExactList : List String :=
  ["award_amount", "award_amount_usd", "amount_this_action", "action_amount",
   "obligation_amount", "obligated_amount", "award_obligated_amount",
   "award_amount_current_usd", "current_amount", "transaction_amount",
   "fy_total_cost", "total_cost", "total_cost_subproject",
   "total_cost_amount", "project_total_cost", "award_total_cost",
   "direct_cost", "direct_cost_amt", "direct_costs"]

/-- Substring candidate list of `_detect_amount_col` (source line 82). -/
def amountContainsList : List String :=
  ["amount", "oblig", "cost", "dollar", "total"]

/-- `_detect_amount_col` (source lines 71-83). -/
def detectAmountCol (cols : List String) : Option String :=
  pickCol cols amountExactList amountContainsList

/-- Candidate lists of `_detect_date_col` (source lines 85-90). -/
def dateExactList : List String :=
  ["award_notice_date", "notice_date", "action_date", "award_date", "date",
   "notice_dt", "award_dt", "transaction_date"]

/-- Substring candidates of `_detect_date_col`. -/
def dateContainsList : List String :=
  ["notice", "award", "action", "date"]

/-- `_detect_date_col` (source lines 85-90). -/
def detectDateCol (cols : List String) : Option String :=
  pickCol cols dateExactList dateContainsList

/-- Exact candidates for the grant/project identifier (source lines 125 and
175). -/
def grantExactList : List String :=
  ["grant_number", "core_project_num", "project_num", "project_number", "application_id"]

/-- Substring candidates for the grant/project identifier. -/
def grantContainsList : List String :=
  ["grant", "project", "application"]

/-- The mechanism letter set (source line 39). -/
def RUPKT : List Char := ['R', 'U', 'P', 'K', 'T']

/-- `_map_mechanism` for one cell (source lines 36-39): strip, take the
first character, uppercase it, keep it when in RUPKT, else "Other"; the
empty string has no first character (pandas `str[0]` gives NaN) and maps to
"Other". -/
def mapMechanism (activity : Value) : String :=
  match (trimStr (asText activity)).data with
  | [] => "Other"
  | c :: _ => if c.toUpper ∈ RUPKT then String.mk [c.toUpper] else "Other"

/-- numpy/pandas `.astype(int)` on a float: truncation toward zero. -/
def truncRat (q : ℚ) : ℤ :=
  if q < 0 then -(((-q).num.toNat / (-q).den : ℕ) : ℤ)
  else ((q.num.toNat / q.den : ℕ) : ℤ)

/-- Numeric-code classification of `_map_type_category` (source lines
42-48): `to_numeric(errors="coerce").fillna(-1).astype(int)` then the
`np.select` ladder over codes 1-5. -/
def mapTypeCode (v : Option ℚ) : String :=
  let code := truncRat (v.getD (-1))
  if code = 1 then "new"
  else if code = 2 then "competing_renewal"
  else if code = 3 then "supplement"
  else if code = 4 then "extension"
  else if code = 5 then "noncompeting_continuation"
  else "other"

/-- The free-text classifier `pick` of `_map_type_category` (source lines
51-57); its argument is already lowercased. -/
def typeTextPick (x : String) : String :=
  if hasSub x "new" then "new"
  else if hasSub x "supp" then "supplement"
  else if hasSub x "non" && hasSub x "comp" then "noncompeting_continuation"
  else if hasSub x "exten" then "extension"
  else if hasSub x "comp" && (hasSub x "renew" || hasSub x "continuation") then "competing_renewal"
  else "other"

/-- `_map_type_category` for one row (source lines 41-59): the code column
wins when resolved; otherwise the lowercased text column; otherwise
"other". -/
def mapTypeCategory (typeCodeCol typeTextCol : Option String) (r : Row) : String :=
  match typeCodeCol with
  | some c => mapTypeCode (parseNum (getV r c))
  | none =>
    match typeTextCol with
    | some c => typeTextPick (lowerStr (asText (getV r c)))
    | none => "other"

/-- A table: ordered column names plus rows. -/
structure Table where
  cols : List String
  rows : List Row
  deriving DecidableEq, Repr

/-- `cand[[grant2, amt2]].groupby(grant2, as_index=False)[amt2].sum()`
(source line 147): one output row per distinct non-null key (pandas drops
NaN group keys), carrying the sum of the value column over that key's rows.
pandas emits the groups sorted by key; the key order is irrelevant here
because the keys are distinct and the result is only used as the right side
of a left join, so discovery order is used. -/
def groupSum (rows : List Row) (keyCol valCol : String) : List (Value × ℚ) :=
  (((rows.map (fun r => getV r keyCol)).filter notna).dedup).map
    (fun k => (k, ((rows.filter (fun r => decide (getV r keyCol = k))).map
      (fun r => ratOf (getV r valCol))).sum))

/-- One iteration of the candidate loop of `_merge_in_amounts_if_needed`
(source lines 120-153), applied to an already-loaded sidecar table:
resolve the sidecar's amount column (skip if none), its identifier column
(skip if none) and optionally its date column; parse the sidecar dates;
drop sidecar rows with null amounts; left-join the primary table to the
sidecar on (identifier, date) when the sidecar has a date column, else on
identifier alone against the by-identifier sums; accept only when the
merged amount column has at least one non-null value.  The sidecar's own
join-key columns also travel through the pandas merge (suffixed on
collision); they are unused downstream and omitted from the merged rows
here, which keep the primary row plus the renamed `award_amount_merged`
column. -/
def tryCandidate (df : Table) (dateCol grantCol : String) (cand : Table) :
    Option (Table × String) :=
  match detectAmountCol cand.cols with
  | none => none
  | some amt2 =>
    let date2opt := detectDateCol cand.cols
    match pickCol cand.cols grantExactList grantContainsList with
    | none => none
    | some grant2 =>
      match date2opt with
      | some date2 =>
        let rows2 := (cand.rows.map (fun r => setCol r date2 (parseDateV (getV r date2)))).filter
          (fun r => notna (getV r amt2))
        let merged := df.rows.flatMap (fun pr =>
          match rows2.filter (fun sr =>
              decide (getV sr grant2 = getV pr grantCol) &&
              decide (getV sr date2 = getV pr dateCol)) with
          | [] => [pr ++ [("award_amount_merged", Value.null)]]
          | s :: ss => (s :: ss).map (fun sr => pr ++ [("award_amount_merged", getV sr amt2)]))
        if merged.any (fun r => notna (getV r "award_amount_merged")) then
          some (⟨df.cols ++ ["award_amount_merged"], merged⟩, "award_amount_merged")
        else none
      | none =>
        let rows2 := cand.rows.filter (fun r => notna (getV r amt2))
        let agg := groupSum rows2 grant2 amt2
        let merged := df.rows.map (fun pr =>
          match agg.find? (fun kv => decide (kv.1 = getV pr grantCol)) with
          | some kv => pr ++ [("award_amount_merged", Value.num kv.2)]
          | none => pr ++ [("award_amount_merged", Value.null)])
        if merged.any (fun r => notna (getV r "award_amount_merged")) then
          some (⟨df.cols ++ ["award_amount_merged"], merged⟩, "award_amount_merged")
        else none

/-- The message of the no-candidates `RuntimeError` (source lines 107-110). -/
def noCandidatesMsg : String :=
  "No dollar column found in main file AND no sidecar amount file under pages/data/reporter/*amount*.\nFix: ensure the upstream processed award-amounts CSV is copied (e.g., nih_award_amounts*.csv.zst)."

/-- The message of the all-candidates-exhausted `RuntimeError` (source lines
156-159). -/
def exhaustedMsg : String :=
  "Could not obtain dollars. The main file has no amount column and none of the sidecar '*amount*' files could be merged on (grant_number[, award_date])."

/-- Result of `_merge_in_amounts_if_needed`: either the table with its
amount column name, or a raised `RuntimeError` carrying its message. -/
inductive MergeOutcome where
  | ok (t : Table) (amountCol : String)
  | fail (msg : String)
  deriving DecidableEq, Repr

/-- A run of the reconciler: its outcome plus the `[warn]` lines printed to
stderr, recorded by the path that failed to load. -/
structure MergeRun where
  outcome : MergeOutcome
  warnings : List String
  deriving DecidableEq, Repr

/-- The glob suffixes of the candidate patterns (source line 104). -/
def globExts : List String := [".csv.zst", ".csv", ".feather", ".parquet"]

/-- Candidate discovery (source lines 103-105): for each pattern, the files
of the directory enumeration matching `*amount*<pattern>`, i.e. containing
"amount" and ending with the pattern's suffix, in enumeration order.
`glob.glob` applies no sorting: the order within a pattern is whatever
order the OS enumerates the directory in. -/
def candidatesFor (listing : List String) : List String :=
  globExts.flatMap (fun ext =>
    listing.filter (fun name => hasSub name "amount" && endsWithExt name ext))

/-- The candidate loop of `_merge_in_amounts_if_needed` (source lines
112-159): try each candidate in order; a failed load prints a warning and
continues; a candidate that resolves and joins returns; exhaustion raises. -/
def mergeLoop (df : Table) (dateCol grantCol : String) (fs : String → Option Table) :
    List String → List String → MergeRun
  | [], ws => ⟨MergeOutcome.fail exhaustedMsg, ws.reverse⟩
  | n :: rest, ws =>
    match fs n with
    | none => mergeLoop df dateCol grantCol fs rest (n :: ws)
    | some cand =>
      match tryCandidate df dateCol grantCol cand with
      | some (t, a) => ⟨MergeOutcome.ok t a, ws.reverse⟩
      | none => mergeLoop df dateCol grantCol fs rest ws

/-- `_merge_in_amounts_if_needed(df, date_col, grant_col)` (source lines
92-159), with the filesystem passed explicitly (`listing` is the directory
enumeration, `fs` the loader). -/
def mergeInAmountsIfNeeded (df : Table) (dateCol grantCol : String)
    (listing : List String) (fs : String → Option Table) : MergeRun :=
  match detectAmountCol df.cols with
  | some c => ⟨MergeOutcome.ok df c, []⟩
  | none =>
    let cands := candidatesFor listing
    if cands.isEmpty then ⟨MergeOutcome.fail noCandidatesMsg, []⟩
    else mergeLoop df dateCol grantCol fs cands []

/-- The outcome of one candidate as the loop sees it: `none` when the load
fails or `tryCandidate` rejects, `some` on acceptance. -/
def attempt (df : Table) (dateCol grantCol : String) (fs : String → Option Table)
    (name : String) : Option (Table × String) :=
  match fs name with
  | none => none
  | some cand => tryCandidate df dateCol grantCol cand

/-- Source lines 187-188: parse the primary date column in place and keep
only the rows whose date parsed. -/
def filterDates (dateCol : String) (rows : List Row) : List Row :=
  (rows.map (fun r => setCol r dateCol (parseDateV (getV r dateCol)))).filter
    (fun r => notna (getV r dateCol))

/-- Source line 201: `df["amount_value"] =
pd.to_numeric(df[amount_col], errors="coerce").fillna(0.0)`. -/
def addAmountValue (amountCol : String) (rows : List Row) : List Row :=
  rows.map (fun r =>
    setCol r "amount_value" (Value.num ((parseNum (getV r amountCol)).getD 0)))

/-! ### Example tables used by counterexamples and witnesses -/

/-- A primary table with no detectable amount column. -/
def exDfNoAmt : Table :=
  ⟨["grant_number", "award_notice_date"],
   [[("grant_number", Value.str "G1"), ("award_notice_date", Value.dateV 100)],
    [("grant_number", Value.str "G2"), ("award_notice_date", Value.dateV 101)]]⟩

/-- A sidecar that loads fine but has no detectable amount column. -/
def exScNoAmtCol : Table :=
  ⟨["grant_number", "award_notice_date"], []⟩

/-- A sidecar with amount, identifier and date columns that joins on
(identifier, date). -/
def exScGood : Table :=
  ⟨["grant_number", "award_notice_date", "award_amount"],
   [[("grant_number", Value.str "G1"), ("award_notice_date", Value.dateV 100),
     ("award_amount", Value.num (mkRat 7 1))]]⟩

/-- A sidecar with no date column: G1 has two non-null amounts, G2 only a
null one. -/
def exScGrantOnly : Table :=
  ⟨["grant_number", "total_cost"],
   [[("grant_number", Value.str "G1"), ("total_cost", Value.num (mkRat 5 1))],
    [("grant_number", Value.str "G1"), ("total_cost", Value.num (mkRat 7 1))],
    [("grant_number", Value.str "G2"), ("total_cost", Value.null)]]⟩

/-- Loader for the C1 scenario: the first candidate loads but lacks an
amount column, the second is good. -/
def exFsC1 : String → Option Table := fun n =>
  if n = "bad_amount.csv" then some exScNoAmtCol
  else if n = "good_amount.csv" then some exScGood
  else none

/-- The merged table the C1 scenario produces. -/
def exMergedC1 : Table :=
  ⟨["grant_number", "award_notice_date", "award_amount_merged"],
   [[("grant_number", Value.str "G1"), ("award_notice_date", Value.dateV 100),
     ("award_amount_merged", Value.num (mkRat 7 1))],
    [("grant_number", Value.str "G2"), ("award_notice_date", Value.dateV 101),
     ("award_amount_merged", Value.null)]]⟩

/-- The merged table of the identifier-only join of `exScGrantOnly`. -/
def exMergedC4 : Table :=
  ⟨["grant_number", "award_notice_date", "award_amount_merged"],
   [[("grant_number", Value.str "G1"), ("award_notice_date", Value.dateV 100),
     ("award_amount_merged", Value.num (mkRat 12 1))],
    [("grant_number", Value.str "G2"), ("award_notice_date", Value.dateV 101),
     ("award_amount_merged", Value.null)]]⟩

/-- A primary table that has an amount column. -/
def exDfWithAmt : Table := ⟨["grant_number", "date", "award_amount"], []⟩

/-- Identifier-only sidecar holding 5 dollars for G1. -/
def exScA : Table :=
  ⟨["grant_number", "total_cost"],
   [[("grant_number", Value.str "G1"), ("total_cost", Value.num (mkRat 5 1))]]⟩

/-- Identifier-only sidecar holding 7 dollars for G1. -/
def exScB : Table :=
  ⟨["grant_number", "total_cost"],
   [[("grant_number", Value.str "G1"), ("total_cost", Value.num (mkRat 7 1))]]⟩

/-- Loader for the C9 scenario: two viable sidecars with different
amounts. -/
def exFsC9 : String → Option Table := fun n =>
  if n = "a_amount.csv" then some exScA
  else if n = "b_amount.csv" then some exScB
  else none

/-- Input rows for the C6 witness: one row with an unparsable date, one
with a parsable date but non-numeric amount. -/
def exRowsC6 : List Row :=
  [[("d", Value.str "oops"), ("a", Value.num 3)],
   [("d", Value.dateV 5), ("a", Value.str "x")]]

/-! ### Substring bridge lemmas -/

theorem hasPre_iff (p : List Char) : ∀ l, hasPre p l = true ↔ ∃ t, p ++ t = l := by
  induction p with
  | nil => intro l; simp [hasPre]
  | cons a as ih =>
    intro l
    cases l with
    | nil => simp [hasPre]
    | cons b bs =>
      simp only [hasPre, Bool.and_eq_true, decide_eq_true_eq, ih bs, List.cons_append,
        List.cons.injEq]
      constructor
      · rintro ⟨rfl, t, rfl⟩; exact ⟨t, rfl, rfl⟩
      · rintro ⟨t, rfl, rfl⟩; exact ⟨rfl, t, rfl⟩

theorem hasSubAux_iff (p : List Char) : ∀ l, hasSubAux p l = true ↔ ∃ u v, u ++ p ++ v = l := by
  intro l
  induction l with
  | nil =>
    cases p <;> simp [hasSubAux, List.isEmpty, List.append_eq_nil]
  | cons b bs ih =>
    simp only [hasSubAux, Bool.or_eq_true, hasPre_iff, ih]
    constructor
    · rintro (⟨t, h⟩ | ⟨u, v, h⟩)
      · exact ⟨[], t, by simpa using h⟩
      · exact ⟨b :: u, v, by simp [h]⟩
    · rintro ⟨u, v, h⟩
      cases u with
      | nil => exact Or.inl ⟨v, by simpa using h⟩
      | cons x u' =>
        rw [List.cons_append, List.cons_append] at h
        injection h with h1 h2
        exact Or.inr ⟨u', v, h2⟩

theorem hasSub_iff (s pat : String) : hasSub s pat = true ↔ SubStr s pat :=
  hasSubAux_iff pat.data s.data

theorem hasSub_true {s p : String} (h : SubStr s p) : hasSub s p = true :=
  (hasSub_iff s p).mpr h

theorem hasSub_false {s p : String} (h : ¬ SubStr s p) : hasSub s p = false := by
  cases hb : hasSub s p with
  | false => rfl
  | true => exact absurd ((hasSub_iff s p).mp hb) h

/-- Any string containing "renew" contains "new" ("new" is a tail of
"renew"). -/
theorem subStr_new_of_renew {x : String} (h : SubStr x "renew") : SubStr x "new" := by
  obtain ⟨l, r, h⟩ := h
  refine ⟨l ++ ['r', 'e'], r, ?_⟩
  rw [← h]
  simp [show ("renew".data : List Char) = ['r', 'e'] ++ "new".data from rfl,
    List.append_assoc]

/-- C3: in the text-only branch (`_map_type_category`, source lines 49-58)
the lowercased text is tested by substring in the exact first-match-wins
order new, supp, non+comp, exten, comp+(renew or continuation), other; in
particular "Non-Competing Continuation" classifies as
noncompeting_continuation. -/
theorem c3_type_text_order (x : String) (c : String) (r : Row) :
    (mapTypeCategory none (some c) r = typeTextPick (lowerStr (asText (getV r c)))) ∧
    (SubStr x "new" → typeTextPick x = "new") ∧
    (¬ SubStr x "new" → SubStr x "supp" → typeTextPick x = "supplement") ∧
    (¬ SubStr x "new" → ¬ SubStr x "supp" → SubStr x "non" → SubStr x "comp" →
      typeTextPick x = "noncompeting_continuation") ∧
    (¬ SubStr x "new" → ¬ SubStr x "supp" → ¬ (SubStr x "non" ∧ SubStr x "comp") →
      SubStr x "exten" → typeTextPick x = "extension") ∧
    (¬ SubStr x "new" → ¬ SubStr x "supp" → ¬ (SubStr x "non" ∧ SubStr x "comp") →
      ¬ SubStr x "exten" → SubStr x "comp" →
      (SubStr x "renew" ∨ SubStr x "continuation") →
      typeTextPick x = "competing_renewal") ∧
    (¬ SubStr x "new" → ¬ SubStr x "supp" → ¬ (SubStr x "non" ∧ SubStr x "comp") →
      ¬ SubStr x "exten" → ¬ (SubStr x "comp" ∧ (SubStr x "renew" ∨ SubStr x "continuation")) →
      typeTextPick x = "other") ∧
    mapTypeCategory none (some "award_type")
      [("award_type", Value.str "Non-Competing Continuation")] = "noncompeting_continuation" := by
  have andFalse : ∀ a b : String, ¬ (SubStr x a ∧ SubStr x b) →
      (hasSub x a && hasSub x b) = false := by
    intro a b hab
    by_cases ha : SubStr x a
    · have hb : ¬ SubStr x b := fun hb => hab ⟨ha, hb⟩
      simp [hasSub_false hb]
    · simp [hasSub_false ha]
  refine ⟨rfl, ?_, ?_, ?_, ?_, ?_, ?_, by decide⟩
  · intro h1; simp [typeTextPick, hasSub_true h1]
  · intro h1 h2; simp [typeTextPick, hasSub_false h1, hasSub_true h2]
  · intro h1 h2 h3 h4
    simp [typeTextPick, hasSub_false h1, hasSub_false h2, hasSub_true h3, hasSub_true h4]
  · intro h1 h2 h3 h4
    simp [typeTextPick, hasSub_false h1, hasSub_false h2, andFalse _ _ h3, hasSub_true h4]
  · intro h1 h2 h3 h4 h5 h6
    have hn : ¬ SubStr x "non" := fun hn => h3 ⟨hn, h5⟩
    have hor : (hasSub x "renew" || hasSub x "continuation") = true := by
      rcases h6 with h | h <;> simp [hasSub_true h]
    simp [typeTextPick, hasSub_false h1, hasSub_false h2, hasSub_false hn,
      hasSub_false h4, hasSub_true h5, hor]
  · intro h1 h2 h3 h4 h5
    have hcr : (hasSub x "comp" && (hasSub x "renew" || hasSub x "continuation")) = false := by
      by_cases hc : SubStr x "comp"
      · have hrc : ¬ (SubStr x "renew" ∨ SubStr x "continuation") :=
          fun hrc => h5 ⟨hc, hrc⟩
        have hr : ¬ SubStr x "renew" := fun h => hrc (Or.inl h)
        have hco : ¬ SubStr x "continuation" := fun h => hrc (Or.inr h)
        simp [hasSub_false hr, hasSub_false hco]
      · simp [hasSub_false hc]
    simp [typeTextPick, hasSub_false h1, hasSub_false h2, andFalse _ _ h3,
      hasSub_false h4, hcr]

/-- C3 witness: applies the ordering theorem at the text "supplemental
award". -/
theorem c3_witness : typeTextPick "supplemental award" = "supplement" :=
  (c3_type_text_order "supplemental award" "t" []).2.2.1
    (fun h => absurd (hasSub_true h) (by decide))
    ((hasSub_iff "supplemental award" "supp").mp rfl)

/-- C10: in the text-only branch, any lowercased text containing "renew"
also contains "new" and classifies as new, so the competing_renewal result
is unreachable for texts containing "renew" ("Competing Renewal" maps to
new) and can only arise from "comp" plus "continuation" in texts containing
none of "new", "supp", "non", "exten". -/
theorem c10_renew_shadowed (x : String) :
    (SubStr x "renew" → SubStr x "new") ∧
    (SubStr x "renew" → typeTextPick x = "new") ∧
    (typeTextPick x = "competing_renewal" →
      SubStr x "comp" ∧ SubStr x "continuation" ∧
      ¬ SubStr x "new" ∧ ¬ SubStr x "supp" ∧ ¬ SubStr x "non" ∧ ¬ SubStr x "exten") ∧
    mapTypeCategory none (some "award_type")
      [("award_type", Value.str "Competing Renewal")] = "new" := by
  refine ⟨fun h => subStr_new_of_renew h,
    fun h => by simp [typeTextPick, hasSub_true (subStr_new_of_renew h)], ?_, by decide⟩
  intro h
  cases h1 : hasSub x "new" with
  | true => simp [typeTextPick, h1] at h
  | false =>
  cases h2 : hasSub x "supp" with
  | true => simp [typeTextPick, h1, h2] at h
  | false =>
  cases h3 : hasSub x "non" && hasSub x "comp" with
  | true => simp [typeTextPick, h1, h2, h3] at h
  | false =>
  cases h4 : hasSub x "exten" with
  | true => simp [typeTextPick, h1, h2, h3, h4] at h
  | false =>
  cases h5 : hasSub x "comp" && (hasSub x "renew" || hasSub x "continuation") with
  | false => simp [typeTextPick, h1, h2, h3, h4, h5] at h
  | true =>
    rw [Bool.and_eq_true] at h5
    obtain ⟨hc, hor⟩ := h5
    have hrenew : hasSub x "renew" = false := by
      cases hr : hasSub x "renew" with
      | false => rfl
      | true =>
        have : hasSub x "new" = true :=
          hasSub_true (subStr_new_of_renew ((hasSub_iff x "renew").mp hr))
        rw [h1] at this; cases this
    rw [hrenew, Bool.false_or] at hor
    have hnon : hasSub x "non" = false := by
      cases hn : hasSub x "non" with
      | false => rfl
      | true => rw [hn, hc] at h3; cases h3
    refine ⟨(hasSub_iff x "comp").mp hc, (hasSub_iff x "continuation").mp hor,
      fun hs => ?_, fun hs => ?_, fun hs => ?_, fun hs => ?_⟩
    · rw [hasSub_true hs] at h1; cases h1
    · rw [hasSub_true hs] at h2; cases h2
    · rw [hasSub_true hs] at hnon; cases hnon
    · rw [hasSub_true hs] at h4; cases h4

/-- C10 witness: applies the theorem at the text "comp continuation". -/
theorem c10_witness :
    SubStr "comp continuation" "comp" ∧ SubStr "comp continuation" "continuation" :=
  have h := (c10_renew_shadowed "comp continuation").2.2.1 (by decide)
  ⟨h.1, h.2.1⟩

/-- C8: `_map_mechanism` returns the uppercased first character of the
trimmed activity code when that character is one of R, U, P, K, T, and
"Other" otherwise; empty or absent codes give "Other", so the result always
lies in the six-element range. -/
theorem c8_mechanism (v : Value) :
    mapMechanism v ∈ (["R", "U", "P", "K", "T", "Other"] : List String) ∧
    ((trimStr (asText v)).data = [] → mapMechanism v = "Other") ∧
    (∀ c cs, (trimStr (asText v)).data = c :: cs →
      mapMechanism v = if c.toUpper ∈ RUPKT then String.mk [c.toUpper] else "Other") ∧
    mapMechanism (Value.str "") = "Other" ∧ mapMechanism Value.null = "Other" := by
  refine ⟨?_, ?_, ?_, by decide, by decide⟩
  · cases hd : (trimStr (asText v)).data with
    | nil => simp [mapMechanism, hd]
    | cons c cs =>
      by_cases hu : c.toUpper ∈ RUPKT
      · have : mapMechanism v = String.mk [c.toUpper] := by simp [mapMechanism, hd, hu]
        rw [this]
        simp only [RUPKT, List.mem_cons, List.not_mem_nil, or_false] at hu
        rcases hu with h | h | h | h | h <;> rw [h] <;> decide
      · simp [mapMechanism, hd, hu]
  · intro h; simp [mapMechanism, h]
  · intro c cs h; simp [mapMechanism, h]

/-- C8 witness: applies the theorem at the activity code " r01". -/
theorem c8_witness : mapMechanism (Value.str " r01") = "R" :=
  ((c8_mechanism (Value.str " r01")).2.2.1 'r' ['0', '1'] (by decide)).trans (by decide)

/-- C5 counterexample: the claim sends every code value other than 1-5 to
"other", but the code value 3/2 (a cell pandas parses as the float 1.5) is
truncated by `astype(int)` to 1 and classifies as "new". -/
theorem c5_counterexample :
    mapTypeCategory (some "type_code") none [("type_code", Value.num (mkRat 3 2))] = "new" ∧
    mapTypeCategory (some "type_code") none [("type_code", Value.num (mkRat 3 2))] ≠ "other" ∧
    mkRat 3 2 ∉ ([1, 2, 3, 4, 5] : List ℚ) := by
  refine ⟨by decide, by decide, by decide⟩

/-- C5 amended: with a resolved type-code column, classification uses that
column regardless of any text column; the cell is coerced
(`to_numeric(errors="coerce")`, NaN filled with -1) and truncated toward
zero to an integer, and the truncated value maps 1 to new, 2 to
competing_renewal, 3 to supplement, 4 to extension, 5 to
noncompeting_continuation, everything else (including unparsable cells) to
other; non-integer numeric codes therefore classify by their truncation. -/
theorem c5_amended (c : String) (tt : Option String) (r : Row) :
    (mapTypeCategory (some c) tt r = mapTypeCode (parseNum (getV r c))) ∧
    (∀ q : ℚ, parseNum (getV r c) = some q →
      (truncRat q = 1 → mapTypeCategory (some c) tt r = "new") ∧
      (truncRat q = 2 → mapTypeCategory (some c) tt r = "competing_renewal") ∧
      (truncRat q = 3 → mapTypeCategory (some c) tt r = "supplement") ∧
      (truncRat q = 4 → mapTypeCategory (some c) tt r = "extension") ∧
      (truncRat q = 5 → mapTypeCategory (some c) tt r = "noncompeting_continuation") ∧
      (truncRat q ∉ ([1, 2, 3, 4, 5] : List ℤ) → mapTypeCategory (some c) tt r = "other")) ∧
    (parseNum (getV r c) = none → mapTypeCategory (some c) tt r = "other") := by
  have hlink : mapTypeCategory (some c) tt r = mapTypeCode (parseNum (getV r c)) := rfl
  refine ⟨hlink, ?_, ?_⟩
  · intro q hq
    rw [hlink, hq]
    refine ⟨fun h => by simp [mapTypeCode, h], fun h => by simp [mapTypeCode, h],
      fun h => by simp [mapTypeCode, h], fun h => by simp [mapTypeCode, h],
      fun h => by simp [mapTypeCode, h], fun h => ?_⟩
    simp only [List.mem_cons, List.not_mem_nil, or_false, not_or] at h
    obtain ⟨h1, h2, h3, h4, h5⟩ := h
    simp [mapTypeCode, h1, h2, h3, h4, h5]
  · intro h
    rw [hlink, h]
    decide

/-- C5 witness: applies the amended theorem at the exact code 2. -/
theorem c5_amended_witness :
    mapTypeCategory (some "type_code") none [("type_code", Value.num 2)] = "competing_renewal" :=
  ((c5_amended "type_code" none [("type_code", Value.num 2)]).2.1 2 rfl).2.1 (by decide)

/-- `cols[cl.index(w)]` with `cl` the lowercased copy of `cols` is the
first column in original order whose lowercased name is `w`. -/
theorem colAt_spec (cols : List String) (w : String) :
    colAt cols (cols.map lowerStr) w = cols.find? (fun c => decide (lowerStr c = w)) := by
  induction cols with
  | nil => rfl
  | cons c t ih =>
    by_cases h : lowerStr c = w
    · simp [colAt, List.find?, h]
    · simp [colAt, List.find?, h, ih]

/-- The exact pass of `_pick_col` returns, for the first candidate with a
case-insensitive hit in `cols`, the first column carrying that hit. -/
theorem pickExact_spec (cols : List String) (exact : List String) :
    pickExact cols (cols.map lowerStr) exact =
      (exact.find? (fun want =>
        (cols.map lowerStr).any (fun l => decide (l = lowerStr want)))).bind
        (fun w => cols.find? (fun c => decide (lowerStr c = lowerStr w))) := by
  induction exact with
  | nil => rfl
  | cons want rest ih =>
    by_cases h : (cols.map lowerStr).any (fun l => decide (l = lowerStr want)) = true
    · simp [pickExact, List.find?, h, colAt_spec]
    · rw [Bool.not_eq_true] at h
      simp [pickExact, List.find?, h, ih]

/-- C2: `_pick_col` returns the first column (in original order) whose
lowercased name equals the earliest exact candidate with any
case-insensitive hit; only when no exact candidate hits does it return the
first column whose lowercased name contains a substring candidate; it
returns none when both passes fail.  Exact matches therefore always beat
substring matches. -/
theorem c2_column_resolver (cols exact csub : List String) :
    (∀ w, exact.find? (fun want =>
        (cols.map lowerStr).any (fun l => decide (l = lowerStr want))) = some w →
      pickCol cols exact csub = cols.find? (fun c => decide (lowerStr c = lowerStr w)) ∧
      (cols.find? (fun c => decide (lowerStr c = lowerStr w))).isSome = true) ∧
    (exact.find? (fun want =>
        (cols.map lowerStr).any (fun l => decide (l = lowerStr want))) = none →
      pickCol cols exact csub =
        cols.find? (fun c => csub.any (fun sub => hasSub (lowerStr c) sub))) ∧
    ((∀ want ∈ exact, ∀ c ∈ cols, lowerStr c ≠ lowerStr want) →
     (∀ c ∈ cols, ∀ sub ∈ csub, ¬ SubStr (lowerStr c) sub) →
      pickCol cols exact csub = none) := by
  refine ⟨?_, ?_, ?_⟩
  · intro w hw
    have hp := List.find?_some hw
    rw [List.any_eq_true] at hp
    obtain ⟨l, hl, he⟩ := hp
    rw [decide_eq_true_eq] at he
    rw [List.mem_map] at hl
    obtain ⟨c0, hc0, rfl⟩ := hl
    have hsome : (cols.find? (fun c => decide (lowerStr c = lowerStr w))).isSome = true := by
      rw [List.find?_isSome]
      exact ⟨c0, hc0, by simp [he]⟩
    obtain ⟨cr, hcr⟩ := Option.isSome_iff_exists.mp hsome
    refine ⟨?_, hsome⟩
    rw [pickCol, pickExact_spec, hw]
    simp [hcr]
  · intro h
    rw [pickCol, pickExact_spec, h]
    rfl
  · intro h1 h2
    have hfe : exact.find? (fun want =>
        (cols.map lowerStr).any (fun l => decide (l = lowerStr want))) = none := by
      rw [List.find?_eq_none]
      intro want hwant
      rw [Bool.not_eq_true, List.any_eq_false]
      intro l hl
      rw [List.mem_map] at hl
      obtain ⟨c0, hc0, rfl⟩ := hl
      simp [h1 want hwant c0 hc0]
    rw [pickCol, pickExact_spec, hfe]
    simp only [Option.none_bind]
    rw [List.find?_eq_none]
    intro c hc
    rw [Bool.not_eq_true, List.any_eq_false]
    intro sub hsub
    rw [Bool.not_eq_true]
    exact hasSub_false (h2 c hc sub hsub)

/-- C2 witness: a column matching the exact candidate "award_amount" beats
the earlier column "total_cost_date" that matches only the substring
"cost". -/
theorem c2_witness :
    pickCol ["total_cost_date", "award_amount"] ["award_amount"] ["cost"] = some "award_amount" :=
  ((c2_column_resolver ["total_cost_date", "award_amount"] ["award_amount"] ["cost"]).1
    "award_amount" (by decide)).1.trans (by decide)

/-- Reading back a column just assigned gives the assigned value. -/
theorem getV_setCol (r : Row) (c : String) (v : Value) : getV (setCol r c v) c = v := by
  rw [setCol]
  by_cases h : r.any (fun p => decide (p.1 = c)) = true
  · rw [if_pos h]
    induction r with
    | nil => cases h
    | cons p t ih =>
      by_cases hp : p.1 = c
      · simp [getV, List.find?, hp]
      · have ht : t.any (fun p => decide (p.1 = c)) = true := by
          rcases List.any_eq_true.mp h with ⟨q, hq, hqc⟩
          rcases List.mem_cons.mp hq with rfl | hq
          · exact absurd (of_decide_eq_true hqc) hp
          · exact List.any_eq_true.mpr ⟨q, hq, hqc⟩
        simpa [getV, List.find?, hp] using ih ht
  · rw [if_neg h]
    rw [Bool.not_eq_true, List.any_eq_false] at h
    induction r with
    | nil => simp [getV, List.find?]
    | cons p t ih =>
      have hp : ¬ p.1 = c := by
        have := h p (List.mem_cons_self p t)
        simpa using this
      have ht : ∀ p ∈ t, ¬ (decide (p.1 = c)) = true := fun q hq => h q (List.mem_cons_of_mem p hq)
      simpa [getV, List.find?, hp] using ih ht

/-- A cell survives `notna` after the date re-parse exactly when the parse
succeeded. -/
theorem notna_parseDateV (v : Value) : notna (parseDateV v) = (parseDateOpt v).isSome := by
  cases v <;> rfl

/-- Filtering a mapped list is mapping the filtered list. -/
theorem filter_map_comm {α β : Type} (f : α → β) (p : β → Bool) (l : List α) :
    (l.map f).filter p = (l.filter (fun a => p (f a))).map f := by
  induction l with
  | nil => rfl
  | cons a t ih =>
    by_cases h : p (f a) = true
    · simp [List.filter, h, ih]
    · rw [Bool.not_eq_true] at h
      simp [List.filter, h, ih]

/-- C6: value coercion is asymmetric (source lines 187-188 and 201): a row
whose date cell fails to parse is dropped from the working set, with no
error and no per-row log; a row whose amount cell fails to parse is kept
and its `amount_value` defaults to 0; every surviving row carries a numeric
`amount_value`, never null. -/
theorem c6_value_coercion (dateCol amountCol : String) (rows : List Row) :
    (filterDates dateCol rows =
      (rows.filter (fun r => (parseDateOpt (getV r dateCol)).isSome)).map
        (fun r => setCol r dateCol (parseDateV (getV r dateCol)))) ∧
    (∀ r ∈ filterDates dateCol rows, parseNum (getV r amountCol) = none →
      setCol r "amount_value" (Value.num 0) ∈
        addAmountValue amountCol (filterDates dateCol rows)) ∧
    (∀ r ∈ addAmountValue amountCol (filterDates dateCol rows),
      ∃ q : ℚ, getV r "amount_value" = Value.num q) := by
  refine ⟨?_, ?_, ?_⟩
  · rw [filterDates, filter_map_comm]
    congr 1
    apply List.filter_congr
    intro r _
    rw [getV_setCol, notna_parseDateV]
  · intro r hr hnum
    have : setCol r "amount_value" (Value.num ((parseNum (getV r amountCol)).getD 0)) ∈
        addAmountValue amountCol (filterDates dateCol rows) :=
      List.mem_map_of_mem _ hr
    simpa [hnum] using this
  · intro r hr
    rw [addAmountValue, List.mem_map] at hr
    obtain ⟨r0, _, rfl⟩ := hr
    exact ⟨_, getV_setCol ..⟩

/-- C6 witness: on `exRowsC6` the bad-date row is dropped and the kept row
with a non-numeric amount receives `amount_value` 0. -/
theorem c6_witness :
    setCol [("d", Value.dateV 5), ("a", Value.str "x")] "amount_value" (Value.num 0) ∈
      addAmountValue "a" (filterDates "d" exRowsC6) :=
  (c6_value_coercion "d" "a" exRowsC6).2.1
    [("d", Value.dateV 5), ("a", Value.str "x")] (by decide) (by decide)

/-- When every candidate fails (load failure or rejection), the loop
returns the exhaustion error, with a warning for exactly the load
failures. -/
theorem mergeLoop_exhaust (df : Table) (dateCol grantCol : String)
    (fs : String → Option Table) :
    ∀ (cands ws : List String),
      (∀ m ∈ cands, attempt df dateCol grantCol fs m = none) →
      mergeLoop df dateCol grantCol fs cands ws =
        ⟨MergeOutcome.fail exhaustedMsg,
         ws.reverse ++ cands.filter (fun m => (fs m).isNone)⟩ := by
  intro cands
  induction cands with
  | nil => intro ws _; simp [mergeLoop]
  | cons n rest ih =>
    intro ws h
    have hn := h n (List.mem_cons_self n rest)
    have hrest : ∀ m ∈ rest, attempt df dateCol grantCol fs m = none :=
      fun m hm => h m (List.mem_cons_of_mem n hm)
    cases hfs : fs n with
    | none =>
      simp only [mergeLoop, hfs, ih (n :: ws) hrest]
      simp [List.filter, hfs, Option.isNone]
    | some cand =>
      have htry : tryCandidate df dateCol grantCol cand = none := by
        have := hn
        rw [attempt, hfs] at this
        exact this
      simp only [mergeLoop, hfs, htry, ih ws hrest]
      simp [List.filter, hfs, Option.isNone]

/-- The loop returns the first accepted candidate's result, warning exactly
about the load failures that preceded it. -/
theorem mergeLoop_success (df : Table) (dateCol grantCol : String)
    (fs : String → Option Table) :
    ∀ (pre : List String), (∀ m ∈ pre, attempt df dateCol grantCol fs m = none) →
    ∀ (n : String) (t : Table) (a : String),
      attempt df dateCol grantCol fs n = some (t, a) →
    ∀ (post ws : List String),
      mergeLoop df dateCol grantCol fs (pre ++ n :: post) ws =
        ⟨MergeOutcome.ok t a,
         ws.reverse ++ pre.filter (fun m => (fs m).isNone)⟩ := by
  intro pre
  induction pre with
  | nil =>
    intro _ n t a hn post ws
    cases hfs : fs n with
    | none => rw [attempt, hfs] at hn; cases hn
    | some cand =>
      rw [attempt] at hn
      simp only [hfs] at hn
      simp only [List.nil_append, List.filter_nil, List.append_nil]
      simp only [mergeLoop, hfs, hn]
  | cons m pre' ih =>
    intro h n t a hn post ws
    have hm := h m (List.mem_cons_self m pre')
    have hpre' : ∀ x ∈ pre', attempt df dateCol grantCol fs x = none :=
      fun x hx => h x (List.mem_cons_of_mem m hx)
    cases hfs : fs m with
    | none =>
      rw [List.cons_append]
      simp only [mergeLoop, hfs, ih hpre' n t a hn post (m :: ws)]
      simp [List.filter, hfs, Option.isNone]
    | some cand =>
      have htry : tryCandidate df dateCol grantCol cand = none := by
        have := hm
        rw [attempt] at this
        simp only [hfs] at this
        exact this
      rw [List.cons_append]
      simp only [mergeLoop, hfs, htry, ih hpre' n t a hn post ws]
      simp [List.filter, hfs, Option.isNone]

/-- C1 counterexample: the claim says every skipped candidate is skipped
with a warning, but a candidate that loads and merely lacks a resolvable
amount column is skipped silently: here "bad_amount.csv" loads, has no
amount column, is iterated first and rejected, the second candidate is
accepted — and the warning list is empty. -/
theorem c1_counterexample :
    candidatesFor ["bad_amount.csv", "good_amount.csv"] =
      ["bad_amount.csv", "good_amount.csv"] ∧
    detectAmountCol exDfNoAmt.cols = none ∧
    exFsC1 "bad_amount.csv" = some exScNoAmtCol ∧
    detectAmountCol exScNoAmtCol.cols = none ∧
    tryCandidate exDfNoAmt "award_notice_date" "grant_number" exScNoAmtCol = none ∧
    mergeInAmountsIfNeeded exDfNoAmt "award_notice_date" "grant_number"
      ["bad_amount.csv", "good_amount.csv"] exFsC1 =
      ⟨MergeOutcome.ok exMergedC1 "award_amount_merged", []⟩ := by
  refine ⟨by decide, by decide, by decide, by decide, by decide, by decide⟩

/-- C1 amended: `_merge_in_amounts_if_needed` returns the primary table
unchanged (and performs no merge) when an amount column resolves on it;
otherwise it raises the no-candidates error when the discovery pattern
matches nothing; otherwise it walks the candidates in discovery order,
skipping non-fatally every candidate that fails to load (with a warning),
lacks a resolvable amount or identifier column, or joins without a single
non-null amount (these last skips are silent), and returns the result of
the first accepted candidate, searching no further; warnings are recorded
exactly for the load failures among the candidates tried before
acceptance. -/
theorem c1_amended (df : Table) (dateCol grantCol : String) (listing : List String)
    (fs : String → Option Table) :
    (∀ c, detectAmountCol df.cols = some c →
      mergeInAmountsIfNeeded df dateCol grantCol listing fs = ⟨MergeOutcome.ok df c, []⟩) ∧
    (detectAmountCol df.cols = none → candidatesFor listing = [] →
      mergeInAmountsIfNeeded df dateCol grantCol listing fs =
        ⟨MergeOutcome.fail noCandidatesMsg, []⟩) ∧
    (∀ pre n post t a, detectAmountCol df.cols = none →
      candidatesFor listing = pre ++ n :: post →
      (∀ m ∈ pre, attempt df dateCol grantCol fs m = none) →
      attempt df dateCol grantCol fs n = some (t, a) →
      mergeInAmountsIfNeeded df dateCol grantCol listing fs =
        ⟨MergeOutcome.ok t a, pre.filter (fun m => (fs m).isNone)⟩) := by
  refine ⟨?_, ?_, ?_⟩
  · intro c h
    rw [mergeInAmountsIfNeeded, h]
  · intro h hc
    rw [mergeInAmountsIfNeeded, h]
    simp [hc]
  · intro pre n post t a h hcands hpre hn
    have hne : (candidatesFor listing).isEmpty = false := by
      rw [hcands]; cases pre <;> rfl
    rw [mergeInAmountsIfNeeded, h]
    simp only [hne, Bool.false_eq_true, if_false]
    rw [hcands, mergeLoop_success df dateCol grantCol fs pre hpre n t a hn post []]
    rfl

/-- C1 witness: applies the amended theorem's first-accepted-candidate case
to the two-candidate scenario, confirming the silent skip and the merge
from the second candidate. -/
theorem c1_amended_witness :
    mergeInAmountsIfNeeded exDfNoAmt "award_notice_date" "grant_number"
      ["bad_amount.csv", "good_amount.csv"] exFsC1 =
      ⟨MergeOutcome.ok exMergedC1 "award_amount_merged", []⟩ := by
  have h := (c1_amended exDfNoAmt "award_notice_date" "grant_number"
      ["bad_amount.csv", "good_amount.csv"] exFsC1).2.2
      ["bad_amount.csv"] "good_amount.csv" [] exMergedC1 "award_amount_merged"
      (by decide) (by decide) (by decide) (by decide)
  exact h.trans (by decide)

/-- C7 counterexample: when the only candidate "zz9_amount.csv" fails, the
reconciler raises the fixed exhaustion message, which does not name the
candidate tried (the claim requires the error to name all candidates). -/
theorem c7_counterexample :
    detectAmountCol exDfNoAmt.cols = none ∧
    candidatesFor ["zz9_amount.csv"] = ["zz9_amount.csv"] ∧
    mergeInAmountsIfNeeded exDfNoAmt "award_notice_date" "grant_number"
      ["zz9_amount.csv"] (fun _ => none) =
      ⟨MergeOutcome.fail exhaustedMsg, ["zz9_amount.csv"]⟩ ∧
    hasSub exhaustedMsg "zz9_amount.csv" = false ∧
    hasSub exhaustedMsg "zz9" = false := by
  refine ⟨by decide, by decide, by decide, by decide, by decide⟩

/-- C7 amended: when the primary table has no amount column and every
discovered candidate fails (to load, to resolve, or to join with a
non-null amount), the reconciler fails fatally with the fixed exhaustion
message, which differs from the no-candidates message but names only the
`*amount*` pattern and the join keys, not the individual candidates tried;
the warnings list the candidates that failed to load. -/
theorem c7_amended (df : Table) (dateCol grantCol : String) (listing : List String)
    (fs : String → Option Table)
    (h : detectAmountCol df.cols = none)
    (hne : candidatesFor listing ≠ [])
    (hall : ∀ m ∈ candidatesFor listing, attempt df dateCol grantCol fs m = none) :
    mergeInAmountsIfNeeded df dateCol grantCol listing fs =
      ⟨MergeOutcome.fail exhaustedMsg,
       (candidatesFor listing).filter (fun m => (fs m).isNone)⟩ ∧
    exhaustedMsg ≠ noCandidatesMsg := by
  have hie : (candidatesFor listing).isEmpty = false := by
    cases hc : candidatesFor listing with
    | nil => exact absurd hc hne
    | cons a t => rfl
  constructor
  · rw [mergeInAmountsIfNeeded, h]
    simp only [hie, Bool.false_eq_true, if_false]
    rw [mergeLoop_exhaust df dateCol grantCol fs (candidatesFor listing) [] hall]
    rfl
  · decide

/-- C7 witness: applies the amended theorem to the single failing
candidate scenario. -/
theorem c7_amended_witness :
    mergeInAmountsIfNeeded exDfNoAmt "award_notice_date" "grant_number"
      ["zz9_amount.csv"] (fun _ => none) =
      ⟨MergeOutcome.fail exhaustedMsg, ["zz9_amount.csv"]⟩ := by
  have h := (c7_amended exDfNoAmt "award_notice_date" "grant_number"
      ["zz9_amount.csv"] (fun _ => none) (by decide) (by decide) (by decide)).1
  exact h.trans (by decide)

attribute [local semireducible] Rat.add

/-- C9: the pipeline's result is not determined by the set of files on
disk: the candidate list follows the unsorted `glob.glob` enumeration
order, so the same primary table and the same sidecar files produce
different merged amounts when the OS enumerates the directory in a
different order (here 5 dollars versus 7 dollars for G1). -/
theorem c9_order_dependence :
    ((["a_amount.csv", "b_amount.csv"] : List String) : Multiset String) =
      ((["b_amount.csv", "a_amount.csv"] : List String) : Multiset String) ∧
    mergeInAmountsIfNeeded exDfNoAmt "award_notice_date" "grant_number"
      ["a_amount.csv", "b_amount.csv"] exFsC9 ≠
    mergeInAmountsIfNeeded exDfNoAmt "award_notice_date" "grant_number"
      ["b_amount.csv", "a_amount.csv"] exFsC9 := by
  refine ⟨by decide, by decide⟩

/-- Searching a list for an element equal to `g` finds `g` iff it is a
member. -/
theorem find?_decide {α : Type} [DecidableEq α] (g : α) (l : List α) :
    l.find? (fun x => decide (x = g)) = if g ∈ l then some g else none := by
  induction l with
  | nil => simp
  | cons a t ih =>
    by_cases h : a = g
    · subst h
      rw [List.find?_cons_of_pos _ (by simp), if_pos (List.mem_cons_self _ _)]
    · rw [List.find?_cons_of_neg _ (by simpa using h), ih]
      by_cases hm : g ∈ t
      · rw [if_pos hm, if_pos (List.mem_cons_of_mem a hm)]
      · rw [if_neg hm, if_neg (fun hg => (List.mem_cons.mp hg).elim (fun hh => h hh.symm) hm)]

/-- What the left join of the identifier-only branch finds for a primary
key `g`: the by-identifier sum when `g` is non-null and has rows, and
nothing otherwise. -/
theorem groupSum_find (rows : List Row) (keyCol valCol : String) (g : Value) :
    (groupSum rows keyCol valCol).find? (fun kv => decide (kv.1 = g)) =
      if notna g = true ∧ rows.filter (fun r => decide (getV r keyCol = g)) ≠ []
      then some (g, ((rows.filter (fun r => decide (getV r keyCol = g))).map
            (fun r => ratOf (getV r valCol))).sum)
      else none := by
  rw [groupSum, List.find?_map]
  have hmem : g ∈ ((rows.map (fun r => getV r keyCol)).filter notna).dedup ↔
      (notna g = true ∧ rows.filter (fun r => decide (getV r keyCol = g)) ≠ []) := by
    rw [List.mem_dedup, List.mem_filter, List.mem_map]
    constructor
    · rintro ⟨⟨r, hr, rfl⟩, hn⟩
      refine ⟨hn, ?_⟩
      have : r ∈ rows.filter (fun x => decide (getV x keyCol = getV r keyCol)) :=
        List.mem_filter.mpr ⟨hr, by simp⟩
      exact List.ne_nil_of_mem this
    · rintro ⟨hn, hne⟩
      obtain ⟨r, hr⟩ := List.exists_mem_of_ne_nil _ hne
      obtain ⟨hrr, hrg⟩ := List.mem_filter.mp hr
      rw [decide_eq_true_eq] at hrg
      exact ⟨⟨r, hrr, hrg⟩, hn⟩
  have hfind : (((rows.map (fun r => getV r keyCol)).filter notna).dedup).find?
      ((fun kv : Value × ℚ => decide (kv.1 = g)) ∘ (fun k =>
        (k, ((rows.filter (fun r => decide (getV r keyCol = k))).map
          (fun r => ratOf (getV r valCol))).sum))) =
      (((rows.map (fun r => getV r keyCol)).filter notna).dedup).find?
        (fun k => decide (k = g)) := rfl
  rw [hfind, find?_decide]
  by_cases hc : notna g = true ∧ rows.filter (fun r => decide (getV r keyCol = g)) ≠ []
  · rw [if_pos (hmem.mpr hc), if_pos hc]
    rfl
  · rw [if_neg (fun hm => hc (hmem.mp hm)), if_neg hc]
    rfl

/-- C4 counterexample: identifier G2 is present in both tables but all its
sidecar amounts are null, so its merged amount is null — not the claimed
sum of its non-null amounts, which is the empty sum 0. -/
theorem c4_counterexample :
    detectDateCol exScGrantOnly.cols = none ∧
    tryCandidate exDfNoAmt "award_notice_date" "grant_number" exScGrantOnly =
      some (exMergedC4, "award_amount_merged") ∧
    Value.str "G2" ∈ exDfNoAmt.rows.map (fun r => getV r "grant_number") ∧
    Value.str "G2" ∈ exScGrantOnly.rows.map (fun r => getV r "grant_number") ∧
    (((exScGrantOnly.rows.filter (fun sr => notna (getV sr "total_cost"))).filter
        (fun sr => decide (getV sr "grant_number" = Value.str "G2"))).map
        (fun sr => ratOf (getV sr "total_cost"))).sum = 0 ∧
    getV (exMergedC4.rows.getD 1 []) "award_amount_merged" = Value.null ∧
    (Value.null ≠ Value.num 0) := by
  refine ⟨by decide, by decide, by decide, by decide, by decide, by decide, by decide⟩

/-- C4 amended: in the identifier-only branch (accepted sidecar without a
resolvable date column) the reconciler retains every primary row exactly
once, in order, appending the merged column: a primary row whose non-null
identifier has sidecar rows with non-null amounts receives the sum of
those amounts; otherwise it receives null. -/
theorem c4_amended (df : Table) (dateCol grantCol : String) (cand : Table)
    (amt2 grant2 : String) (t : Table) (a : String)
    (hamt : detectAmountCol cand.cols = some amt2)
    (hgrant : pickCol cand.cols grantExactList grantContainsList = some grant2)
    (hdate : detectDateCol cand.cols = none)
    (hacc : tryCandidate df dateCol grantCol cand = some (t, a)) :
    a = "award_amount_merged" ∧
    t.rows.length = df.rows.length ∧
    (∀ (i : ℕ) (pr : Row), df.rows[i]? = some pr →
      t.rows[i]? = some (pr ++ [("award_amount_merged",
        if notna (getV pr grantCol) = true ∧
            (cand.rows.filter (fun r => notna (getV r amt2))).filter
              (fun r => decide (getV r grant2 = getV pr grantCol)) ≠ []
        then Value.num (((((cand.rows.filter (fun r => notna (getV r amt2))).filter
              (fun r => decide (getV r grant2 = getV pr grantCol))).map
              (fun r => ratOf (getV r amt2))).sum))
        else Value.null)])) := by
  rw [tryCandidate, hamt, hgrant] at hacc
  simp only [hdate] at hacc
  set f : Row → Row := fun pr =>
    match (groupSum (cand.rows.filter (fun r => notna (getV r amt2))) grant2 amt2).find?
        (fun kv => decide (kv.1 = getV pr grantCol)) with
    | some kv => pr ++ [("award_amount_merged", Value.num kv.2)]
    | none => pr ++ [("award_amount_merged", Value.null)] with hf
  have hmerged : (if (df.rows.map f).any
        (fun r => notna (getV r "award_amount_merged")) then
      some ((⟨df.cols ++ ["award_amount_merged"], df.rows.map f⟩ : Table),
        "award_amount_merged")
      else none) = some (t, a) := hacc
  split at hmerged
  · rw [Option.some.injEq, Prod.mk.injEq] at hmerged
    obtain ⟨ht, ha⟩ := hmerged
    refine ⟨ha.symm, ?_, ?_⟩
    · rw [← ht]
      exact List.length_map df.rows f
    · intro i pr hpr
      rw [← ht]
      show (df.rows.map f)[i]? = _
      rw [List.getElem?_map, hpr, Option.map_some']
      have hfpr : f pr = pr ++ [("award_amount_merged",
          if notna (getV pr grantCol) = true ∧
              (cand.rows.filter (fun r => notna (getV r amt2))).filter
                (fun r => decide (getV r grant2 = getV pr grantCol)) ≠ []
          then Value.num (((((cand.rows.filter (fun r => notna (getV r amt2))).filter
                (fun r => decide (getV r grant2 = getV pr grantCol))).map
                (fun r => ratOf (getV r amt2))).sum))
          else Value.null)] := by
        rw [hf]
        simp only [groupSum_find]
        by_cases hc : notna (getV pr grantCol) = true ∧
            (cand.rows.filter (fun r => notna (getV r amt2))).filter
              (fun r => decide (getV r grant2 = getV pr grantCol)) ≠ []
        · rw [if_pos hc, if_pos hc]
        · rw [if_neg hc, if_neg hc]
      rw [hfpr]
  · cases hmerged

/-- C4 witness: applies the amended theorem to the concrete identifier-only
scenario, confirming that the left join retains every primary row. -/
theorem c4_amended_witness : exMergedC4.rows.length = exDfNoAmt.rows.length :=
  (c4_amended exDfNoAmt "award_notice_date" "grant_number" exScGrantOnly
    "total_cost" "grant_number" exMergedC4 "award_amount_merged"
    (by decide) (by decide) (by decide) (by decide)).2.1
